import Mathlib

/-!
Verification of the download-orchestration core of `mt-downloader`
(`src/main.rs`): the retry/backoff controller `download_with_retries`,
the output-path resolver `pick_output_path`, the filename selector
`file_name_from_url`, and the semaphore-gated concurrency scheduler of
`main`, shallowly embedded in Lean.
-/

set_option autoImplicit false

namespace MtDownloader

/-! ### Retry controller (`download_with_retries`, src/main.rs 183-207)

The transfer executor `download_once` is abstracted as a function
`exec : Nat → Except E Unit` from the attempt number (1-based) to that
attempt's outcome, with `E` the abstract error type (`anyhow::Error` in
the source).  The run is instrumented with the number of executor
invocations and the list of back-off sleep durations (milliseconds), in
the order they are performed. -/

/-- Errors returned by the retry loop: either an error recorded from an
attempt (`last_err = Some(e)`), or the synthetic fallback
`anyhow!("unknown error")` from line 206. -/
inductive RetryError (E : Type) where
  | attemptErr (e : E)
  | unknownError
deriving DecidableEq

/-- Observable outcome of one run of the retry loop: final result, number
of executor invocations, and the back-off sleep durations performed. -/
structure RetryRun (E : Type) where
  result : Except (RetryError E) Unit
  calls : Nat
  sleeps : List Nat

/-- The delay `backoff_ms * (1u64 << (attempt - 1))` of line 198, in release
semantics for `u64`: the shift amount is masked to the low 6 bits and the
product wraps modulo `2 ^ 64`. -/
def delayOf (backoff attempt : Nat) : Nat :=
  (backoff * 2 ^ ((attempt - 1) % 64)) % 2 ^ 64

/-- The `for attempt in 1..=retries.max(1)` loop of lines 192-204, run
over the explicit list of attempt numbers.  `lastErr` is `last_err`;
on failure the error is recorded, and a sleep of `delayOf backoff attempt`
is performed only when `attempt < retries` (line 197 compares against
`retries`, not against `retries.max(1)`). -/
def retryLoop {E : Type} (exec : Nat → Except E Unit) (retries backoff : Nat) :
    List Nat → Option E → Nat → List Nat → RetryRun E
  | [], lastErr, calls, sleeps =>
    match lastErr with
    | some e => ⟨Except.error (RetryError.attemptErr e), calls, sleeps⟩
    | none => ⟨Except.error RetryError.unknownError, calls, sleeps⟩
  | attempt :: rest, lastErr, calls, sleeps =>
    match exec attempt with
    | Except.ok _ => ⟨Except.ok (), calls + 1, sleeps⟩
    | Except.error e =>
      if attempt < retries then
        retryLoop exec retries backoff rest (some e) (calls + 1)
          (sleeps ++ [delayOf backoff attempt])
      else
        retryLoop exec retries backoff rest (some e) (calls + 1) sleeps

/-- Function `download_with_retries` (lines 183-207): attempts `1..=retries.max(1)`,
starting with no recorded error, no calls and no sleeps. -/
def download_with_retries {E : Type} (exec : Nat → Except E Unit)
    (retries backoff : Nat) : RetryRun E :=
  retryLoop exec retries backoff (List.range' 1 (Nat.max retries 1)) none 0 []

/-! ### Output path resolver (`pick_output_path`, src/main.rs 108-135)

The filesystem is abstracted as a predicate `existsF : String → Bool`
telling which paths currently exist (`Path::exists`).  Paths are strings;
`Path::join` with a relative file-name component (URL path segments never
contain `/`) is string concatenation with a separator. -/

/-- Join `out_dir.join(name)` for a relative file-name component. -/
def joinPath (dir name : String) : String := dir ++ "/" ++ name

/-- Splits a list of characters at its last dot: returns
`some (before, after)` where `before` and `after` surround the last `.`,
or `none` when no dot occurs. -/
def lastDotSplit : List Char → Option (List Char × List Char)
  | [] => none
  | c :: cs =>
    match lastDotSplit cs with
    | some (pre, post) => some (c :: pre, post)
    | none => if c = '.' then some ([], cs) else none

/-- Rust `Path::new(base).file_stem().and_then(to_str).unwrap_or("file")`
(lines 115-118).  For the special components `""`, `"."` and `".."` the
file name is absent and the fallback `"file"` applies; otherwise the stem
is the part before the last dot, or the whole name when there is no dot
or when the name starts with its only dot. -/
def fileStem (base : String) : String :=
  if base = "" ∨ base = "." ∨ base = ".." then "file"
  else
    match lastDotSplit base.toList with
    | some (pre, _) => if pre = [] then base else String.mk pre
    | none => base

/-- Rust `Path::new(base).extension().and_then(to_str).unwrap_or("")`
(lines 119-122): the part after the last dot, or `""` when there is no
dot, the name starts with its only dot, or the file name is absent. -/
def fileExt (base : String) : String :=
  if base = "" ∨ base = "." ∨ base = ".." then ""
  else
    match lastDotSplit base.toList with
    | some (pre, post) => if pre = [] then "" else String.mk post
    | none => ""

/-- The candidate file name `format!("{stem} ({i}).{ext}")`, or without
the extension part when `ext` is empty (lines 124-129). -/
def candidateName (stem ext : String) (i : Nat) : String :=
  if ext = "" then stem ++ " (" ++ toString i ++ ")"
  else stem ++ " (" ++ toString i ++ ")." ++ ext

/-- The probe loop `for i in 1..=9999` (lines 124-133): return the first
candidate that does not exist, else fall back to the original path. -/
def probeLoop (existsF : String → Bool) (out_dir stem ext : String) :
    Nat → Nat → String → String
  | _, 0, fallback => fallback
  | i, fuel + 1, fallback =>
    let candidate := joinPath out_dir (candidateName stem ext i)
    if existsF candidate then
      probeLoop existsF out_dir stem ext (i + 1) fuel fallback
    else candidate

/-- Function `pick_output_path` (lines 108-135). -/
def pick_output_path (existsF : String → Bool) (out_dir base : String)
    (overwrite : Bool) : String :=
  let path := joinPath out_dir base
  if overwrite || !existsF path then path
  else probeLoop existsF out_dir (fileStem base) (fileExt base) 1 9999 path

/-! ### Filename selection (`file_name_from_url`, src/main.rs 100-106)

Here `Url::path_segments` is modelled by its result: `none` for
cannot-be-a-base URLs, otherwise `some` of the list of path segments. -/

/-- Function `file_name_from_url` (lines 100-106): the final path segment
(`segs.next_back()`), kept only if non-empty, else `"download"`. -/
def file_name_from_url (segments : Option (List String)) : String :=
  match segments with
  | none => "download"
  | some segs =>
    match segs.getLast? with
    | none => "download"
    | some s => if s = "" then "download" else s

/-- Modelled from the spec: "Derived from the URL's last non-empty path
segment" — the selector the spec describes, for comparison with
`file_name_from_url`. -/
def lastNonEmptySegment (segments : Option (List String)) : Option String :=
  segments.bind fun segs => (segs.filter (fun s => !(s == ""))).getLast?

/-! ### Concurrency scheduler (`main`, src/main.rs 35-98)

The semaphore-gated scheduling of lines 57-95 is embedded as a transition
system.  A state counts the `available` semaphore permits, the requests
not yet admitted (`pending`), the spawned tasks currently holding a
permit (`running`, the `_p = permit` scope of line 70), and the tasks
that have finished and released their permit (`done`).  A task releases
its permit exactly when it concludes, on every exit path (invalid URL
early return, failure, or success). -/

structure SchedState where
  available : Nat
  pending : Nat
  running : Nat
  done : Nat
deriving DecidableEq

/-- Initial state of a run: `Semaphore::new(limit)` (line 57) and `n`
requested URLs, none admitted yet. -/
def schedInit (limit n : Nat) : SchedState := ⟨limit, n, 0, 0⟩

/-- One scheduling event: `acquire` is `sem.acquire_owned().await`
succeeding for the next request (line 61, enabled only when a permit is
available), `complete` is a spawned task finishing and dropping its
permit (lines 70-88). -/
inductive SchedStep : SchedState → SchedState → Prop
  | acquire (s : SchedState) (ha : 0 < s.available) (hp : 0 < s.pending) :
      SchedStep s ⟨s.available - 1, s.pending - 1, s.running + 1, s.done⟩
  | complete (s : SchedState) (hr : 0 < s.running) :
      SchedStep s ⟨s.available + 1, s.pending, s.running - 1, s.done + 1⟩

/-- States reachable during a run of the scheduler with `limit` permits
over `n` requests. -/
inductive SchedReachable (limit n : Nat) : SchedState → Prop
  | init : SchedReachable limit n (schedInit limit n)
  | step {s s' : SchedState} : SchedReachable limit n s → SchedStep s s' →
      SchedReachable limit n s'

/-- The fatal-error paths of `main` before any scheduling (lines 36-47):
exit code 2 when no URLs are given, propagated error when creating the
output directory fails.  No other configuration check is performed. -/
inductive MainFatal where
  | noUrls
  | dirCreateFailed
deriving DecidableEq

/-- Configuration validation actually performed by `main` (lines 38-46):
the concurrency limit is never inspected. -/
def mainValidate (urls : List String) (concurrency : Nat)
    (dirCreateOk : Bool) : Option MainFatal :=
  if urls.isEmpty then some MainFatal.noUrls
  else if !dirCreateOk then some MainFatal.dirCreateFailed
  else none

/-! ### Lemmas about the retry loop -/

section RetryLemmas

variable {E : Type} (exec : Nat → Except E Unit) (retries backoff : Nat)

/-- The sleep log only grows: whatever the loop returns extends the
sleeps accumulated so far. -/
theorem retryLoop_sleeps_prefix :
    ∀ (attempts : List Nat) (lastErr : Option E) (calls : Nat)
      (sleeps : List Nat),
    ∃ rest, (retryLoop exec retries backoff attempts lastErr calls
      sleeps).sleeps = sleeps ++ rest := by
  intro attempts
  induction attempts with
  | nil =>
    intro lastErr calls sleeps
    refine ⟨[], ?_⟩
    cases lastErr <;> simp [retryLoop]
  | cons a rest ih =>
    intro lastErr calls sleeps
    cases hx : exec a with
    | ok u =>
      refine ⟨[], ?_⟩
      simp [retryLoop, hx]
    | error e =>
      by_cases hlt : a < retries
      · obtain ⟨r1, hr1⟩ := ih (some e) (calls + 1)
          (sleeps ++ [delayOf backoff a])
        refine ⟨delayOf backoff a :: r1, ?_⟩
        simp only [retryLoop, hx, if_pos hlt]
        rw [hr1, List.append_assoc]
        rfl
      · obtain ⟨r1, hr1⟩ := ih (some e) (calls + 1) sleeps
        refine ⟨r1, ?_⟩
        simp only [retryLoop, hx, if_neg hlt]
        exact hr1

/-- The loop reports success exactly when some listed attempt succeeds. -/
theorem retryLoop_ok_iff :
    ∀ (attempts : List Nat) (lastErr : Option E) (calls : Nat)
      (sleeps : List Nat),
    (retryLoop exec retries backoff attempts lastErr calls
      sleeps).result.isOk = true ↔
    ∃ a ∈ attempts, (exec a).isOk = true := by
  intro attempts
  induction attempts with
  | nil =>
    intro lastErr calls sleeps
    cases lastErr <;> simp [retryLoop, Except.isOk, Except.toBool]
  | cons a rest ih =>
    intro lastErr calls sleeps
    cases hx : exec a with
    | ok u =>
      simp only [retryLoop, hx]
      constructor
      · intro _
        refine ⟨a, List.mem_cons_self a rest, ?_⟩
        rw [hx]
        rfl
      · intro _
        rfl
    | error e =>
      by_cases hlt : a < retries
      · simp only [retryLoop, hx, if_pos hlt]
        rw [ih]
        constructor
        · rintro ⟨a', ha', hok⟩
          exact ⟨a', List.mem_cons_of_mem a ha', hok⟩
        · rintro ⟨a', ha', hok⟩
          rcases List.mem_cons.mp ha' with h | h
          · subst h
            rw [hx] at hok
            simp [Except.isOk, Except.toBool] at hok
          · exact ⟨a', h, hok⟩
      · simp only [retryLoop, hx, if_neg hlt]
        rw [ih]
        constructor
        · rintro ⟨a', ha', hok⟩
          exact ⟨a', List.mem_cons_of_mem a ha', hok⟩
        · rintro ⟨a', ha', hok⟩
          rcases List.mem_cons.mp ha' with h | h
          · subst h
            rw [hx] at hok
            simp [Except.isOk, Except.toBool] at hok
          · exact ⟨a', h, hok⟩

/-- Any error the loop returns is an error recorded from an attempt (or
was already recorded on entry); the synthetic fallback never appears as
long as the loop is entered with at least one attempt or a recorded
error. -/
theorem retryLoop_error_shape :
    ∀ (attempts : List Nat) (lastErr : Option E) (calls : Nat)
      (sleeps : List Nat) (x : RetryError E),
    (lastErr = none → attempts ≠ []) →
    (retryLoop exec retries backoff attempts lastErr calls
      sleeps).result = Except.error x →
    ∃ e, x = RetryError.attemptErr e ∧
      (lastErr = some e ∨ ∃ a ∈ attempts, exec a = Except.error e) := by
  intro attempts
  induction attempts with
  | nil =>
    intro lastErr calls sleeps x hne hres
    cases lastErr with
    | none => exact absurd rfl (fun h => hne h rfl)
    | some e =>
      refine ⟨e, ?_, Or.inl rfl⟩
      simp [retryLoop] at hres
      exact hres.symm
  | cons a rest ih =>
    intro lastErr calls sleeps x hne hres
    cases hx : exec a with
    | ok u =>
      simp [retryLoop, hx] at hres
    | error e =>
      have hrec :
          ∃ e', x = RetryError.attemptErr e' ∧
            (some e = some e' ∨ ∃ a' ∈ rest, exec a' = Except.error e') := by
        by_cases hlt : a < retries
        · simp only [retryLoop, hx, if_pos hlt] at hres
          exact ih (some e) (calls + 1) (sleeps ++ [delayOf backoff a]) x
            (fun h => absurd h (by simp)) hres
        · simp only [retryLoop, hx, if_neg hlt] at hres
          exact ih (some e) (calls + 1) sleeps x
            (fun h => absurd h (by simp)) hres
      obtain ⟨e', hxe, hcase⟩ := hrec
      rcases hcase with h | ⟨a', ha', he'⟩
      · refine ⟨e', hxe, Or.inr ⟨a, List.mem_cons_self a rest, ?_⟩⟩
        rw [hx]
        rw [Option.some.injEq] at h
        rw [h]
      · exact ⟨e', hxe, Or.inr ⟨a', List.mem_cons_of_mem a ha', he'⟩⟩

/-- When all attempts of a first block fail and are below the sleep
threshold, the sleeps performed start with that block's delays. -/
theorem retryLoop_sleeps_allfail_prefix :
    ∀ (l1 l2 : List Nat) (lastErr : Option E) (calls : Nat)
      (sleeps : List Nat),
    (∀ a ∈ l1, ∃ e, exec a = Except.error e) →
    (∀ a ∈ l1, a < retries) →
    ∃ rest, (retryLoop exec retries backoff (l1 ++ l2) lastErr calls
      sleeps).sleeps = sleeps ++ l1.map (delayOf backoff) ++ rest := by
  intro l1
  induction l1 with
  | nil =>
    intro l2 lastErr calls sleeps _ _
    obtain ⟨r1, hr1⟩ :=
      retryLoop_sleeps_prefix exec retries backoff l2 lastErr calls sleeps
    refine ⟨r1, ?_⟩
    simpa using hr1
  | cons a l1 ih =>
    intro l2 lastErr calls sleeps hfail hlt
    obtain ⟨e, he⟩ := hfail a (List.mem_cons_self a l1)
    have ha : a < retries := hlt a (List.mem_cons_self a l1)
    obtain ⟨r1, hr1⟩ := ih l2 (some e) (calls + 1)
      (sleeps ++ [delayOf backoff a])
      (fun a' h => hfail a' (List.mem_cons_of_mem a h))
      (fun a' h => hlt a' (List.mem_cons_of_mem a h))
    refine ⟨r1, ?_⟩
    rw [List.cons_append]
    simp only [retryLoop, he, if_pos ha]
    simpa [List.append_assoc, List.append_eq] using hr1

end RetryLemmas

/-! ### Lemmas about the path resolver and the scheduler -/

/-- The probe loop returns the first free candidate in its probing window,
or the fallback when every candidate in the window exists. -/
theorem probeLoop_spec (existsF : String → Bool) (out_dir stem ext : String) :
    ∀ (fuel i : Nat) (fallback : String),
    (∃ k, i ≤ k ∧ k < i + fuel ∧
      existsF (joinPath out_dir (candidateName stem ext k)) = false ∧
      (∀ j, i ≤ j → j < k →
        existsF (joinPath out_dir (candidateName stem ext j)) = true) ∧
      probeLoop existsF out_dir stem ext i fuel fallback =
        joinPath out_dir (candidateName stem ext k)) ∨
    ((∀ k, i ≤ k → k < i + fuel →
        existsF (joinPath out_dir (candidateName stem ext k)) = true) ∧
      probeLoop existsF out_dir stem ext i fuel fallback = fallback) := by
  intro fuel
  induction fuel with
  | zero =>
    intro i fallback
    refine Or.inr ⟨?_, rfl⟩
    intro k hk hk'
    omega
  | succ fuel ih =>
    intro i fallback
    cases hc : existsF (joinPath out_dir (candidateName stem ext i)) with
    | false =>
      refine Or.inl ⟨i, Nat.le_refl i, by omega, hc, ?_, ?_⟩
      · intro j hj hj'
        omega
      · simp [probeLoop, hc]
    | true =>
      have hunfold :
          probeLoop existsF out_dir stem ext i (fuel + 1) fallback =
          probeLoop existsF out_dir stem ext (i + 1) fuel fallback := by
        simp [probeLoop, hc]
      rcases ih (i + 1) fallback with
        ⟨k, hk1, hk2, hkf, hmin, heq⟩ | ⟨hall, heq⟩
      · refine Or.inl ⟨k, by omega, by omega, hkf, ?_, by rw [hunfold, heq]⟩
        intro j hj hj'
        by_cases hji : j = i
        · rw [hji]
          exact hc
        · exact hmin j (by omega) hj'
      · refine Or.inr ⟨?_, by rw [hunfold, heq]⟩
        intro k hk hk'
        by_cases hki : k = i
        · rw [hki]
          exact hc
        · exact hall k (by omega) (by omega)

/-- State invariant of the scheduler: permits in the semaphore plus
permits held by running tasks equal the configured limit, and requests
are conserved. -/
theorem schedReachable_inv {limit n : Nat} {s : SchedState}
    (h : SchedReachable limit n s) :
    s.available + s.running = limit ∧ s.pending + s.running + s.done = n := by
  induction h with
  | init => simp [schedInit]
  | step hreach hstep ih =>
    cases hstep with
    | acquire ha hp =>
      simp only [SchedState.mk.injEq] at *
      omega
    | complete hr =>
      simp only [SchedState.mk.injEq] at *
      omega

/-- The attempt list of a run is never empty (`retries.max(1) ≥ 1`). -/
theorem attempts_ne_nil (retries : Nat) :
    List.range' 1 (Nat.max retries 1) ≠ [] := by
  intro hcon
  have h1 : 1 ≤ Nat.max retries 1 := Nat.le_max_right retries 1
  have hlen := congrArg List.length hcon
  simp [List.length_range'] at hlen

/-! ### Claims -/

/-- C1: at any instant during a run of the scheduler, the number of
outstanding concurrency permits (tasks that have acquired the semaphore
and not yet completed) never exceeds the configured concurrency limit,
for every number of requests and every positive limit. -/
theorem scheduler_permits_bounded (limit n : Nat) (s : SchedState)
    (hpos : 0 < limit) (h : SchedReachable limit n s) :
    s.running ≤ limit := by
  have hinv := (schedReachable_inv h).1
  omega

/-- Witness for C1 at `concurrencyLimit = 2` over 5 requests, in the
initial state. -/
theorem scheduler_permits_bounded_witness :
    0 < 2 ∧ (schedInit 2 5).running ≤ 2 :=
  ⟨by decide,
    scheduler_permits_bounded 2 5 (schedInit 2 5) (by decide)
      SchedReachable.init⟩

/-- C3: with `maxAttempts = 2` and an executor failing on attempts 1 and
2, the retry controller invokes the executor exactly twice and returns
the failure recorded from the second (final) attempt. -/
theorem retry_exhausted_after_two {E : Type} (exec : Nat → Except E Unit)
    (b : Nat) (e1 e2 : E)
    (h1 : exec 1 = Except.error e1) (h2 : exec 2 = Except.error e2) :
    (download_with_retries exec 2 b).result =
      Except.error (RetryError.attemptErr e2) ∧
    (download_with_retries exec 2 b).calls = 2 := by
  have hl : List.range' 1 (Nat.max 2 1) = [1, 2] := rfl
  unfold download_with_retries
  rw [hl]
  simp [retryLoop, h1, h2]

/-- Witness for C3 with the always-failing executor. -/
theorem retry_exhausted_after_two_witness :
    (download_with_retries (fun _ => (Except.error () : Except Unit Unit))
      2 10).result = Except.error (RetryError.attemptErr ()) ∧
    (download_with_retries (fun _ => (Except.error () : Except Unit Unit))
      2 10).calls = 2 :=
  retry_exhausted_after_two (fun _ => Except.error ()) 10 () () rfl rfl

/-- C9: `maxAttempts = 0` behaves exactly as `maxAttempts = 1`: the
executor is invoked once, no back-off sleep is performed, and the single
attempt's result is returned. -/
theorem retry_zero_clamped {E : Type} (exec : Nat → Except E Unit)
    (b : Nat) :
    download_with_retries exec 0 b = download_with_retries exec 1 b ∧
    (download_with_retries exec 0 b).calls = 1 ∧
    (download_with_retries exec 0 b).sleeps = [] ∧
    (download_with_retries exec 0 b).result =
      (match exec 1 with
       | Except.ok _ => Except.ok ()
       | Except.error e => Except.error (RetryError.attemptErr e)) := by
  have h0 : List.range' 1 (Nat.max 0 1) = [1] := rfl
  have h1 : List.range' 1 (Nat.max 1 1) = [1] := rfl
  unfold download_with_retries
  rw [h0, h1]
  cases hx : exec 1 with
  | ok u => simp [retryLoop, hx]
  | error e => simp [retryLoop, hx]

/-- Witness for C9 with a succeeding executor. -/
theorem retry_zero_clamped_witness :
    download_with_retries (fun _ => (Except.ok () : Except Unit Unit)) 0 10 =
      download_with_retries (fun _ => (Except.ok () : Except Unit Unit)) 1 10 ∧
    (download_with_retries (fun _ => (Except.ok () : Except Unit Unit))
      0 10).calls = 1 ∧
    (download_with_retries (fun _ => (Except.ok () : Except Unit Unit))
      0 10).sleeps = [] ∧
    (download_with_retries (fun _ => (Except.ok () : Except Unit Unit))
      0 10).result =
      (match (Except.ok () : Except Unit Unit) with
       | Except.ok _ => Except.ok ()
       | Except.error e => Except.error (RetryError.attemptErr e)) :=
  retry_zero_clamped (fun _ => Except.ok ()) 10

/-- C10: the retry controller returns `Ok` exactly when some attempt in
`1..=retries.max(1)` succeeds; any returned error is the error recorded
from one of those attempts, and the synthetic `unknown error` fallback of
line 206 is never produced. -/
theorem retry_result_faithful {E : Type} (exec : Nat → Except E Unit)
    (retries backoff : Nat) :
    ((download_with_retries exec retries backoff).result.isOk = true ↔
      ∃ n, 1 ≤ n ∧ n ≤ Nat.max retries 1 ∧ (exec n).isOk = true) ∧
    (∀ x,
      (download_with_retries exec retries backoff).result = Except.error x →
      ∃ n e, 1 ≤ n ∧ n ≤ Nat.max retries 1 ∧ exec n = Except.error e ∧
        x = RetryError.attemptErr e) ∧
    (download_with_retries exec retries backoff).result ≠
      Except.error RetryError.unknownError := by
  have hok :
      (download_with_retries exec retries backoff).result.isOk = true ↔
      ∃ n, 1 ≤ n ∧ n ≤ Nat.max retries 1 ∧ (exec n).isOk = true := by
    unfold download_with_retries
    rw [retryLoop_ok_iff]
    constructor
    · rintro ⟨a, ha, hoka⟩
      have hb := List.mem_range'_1.mp ha
      exact ⟨a, hb.1, by omega, hoka⟩
    · rintro ⟨m, hm1, hm2, hokm⟩
      exact ⟨m, List.mem_range'_1.mpr ⟨hm1, by omega⟩, hokm⟩
  have herr : ∀ x,
      (download_with_retries exec retries backoff).result = Except.error x →
      ∃ n e, 1 ≤ n ∧ n ≤ Nat.max retries 1 ∧ exec n = Except.error e ∧
        x = RetryError.attemptErr e := by
    intro x hx
    obtain ⟨e, hxe, hcase⟩ :=
      retryLoop_error_shape exec retries backoff
        (List.range' 1 (Nat.max retries 1)) none 0 [] x
        (fun _ => attempts_ne_nil retries) hx
    rcases hcase with h | ⟨a, ha, he⟩
    · cases h
    · have hb := List.mem_range'_1.mp ha
      exact ⟨a, e, hb.1, by omega, he, hxe⟩
  refine ⟨hok, herr, ?_⟩
  intro hcon
  obtain ⟨n, e, _, _, _, hx⟩ := herr RetryError.unknownError hcon
  cases hx

/-- C2 counterexample: at base `2 ^ 63` the second sleep is computed in
wrapping 64-bit arithmetic and comes out as `0`, not `2 * base`. -/
theorem retry_two_sleeps_counterexample :
    (download_with_retries
      (fun n => if n = 3 then Except.ok ()
                else (Except.error () : Except Unit Unit))
      3 (2 ^ 63)).sleeps = [2 ^ 63, 0] ∧
    2 * (2 ^ 63 : Nat) ≠ 0 := by
  constructor
  · rfl
  · norm_num

/-- C2 (amended): an executor failing on attempts 1 and 2 and succeeding
on attempt 3, with `maxAttempts = 3` and base `b < 2 ^ 64`, yields
success, exactly 3 invocations, and two back-off sleeps, in order, of
durations `b` and `2 * b % 2 ^ 64` (equal to `2 * b` whenever that
product fits in 64 bits). -/
theorem retry_succeeds_on_third_attempt {E : Type}
    (exec : Nat → Except E Unit) (b : Nat) (e1 e2 : E) (hb : b < 2 ^ 64)
    (h1 : exec 1 = Except.error e1) (h2 : exec 2 = Except.error e2)
    (h3 : exec 3 = Except.ok ()) :
    download_with_retries exec 3 b =
      ⟨Except.ok (), 3, [b, 2 * b % 2 ^ 64]⟩ := by
  have hl : List.range' 1 (Nat.max 3 1) = [1, 2, 3] := rfl
  have d1 : delayOf b 1 = b := by
    have hd : delayOf b 1 = b % 2 ^ 64 := by norm_num [delayOf]
    rw [hd]
    exact Nat.mod_eq_of_lt hb
  have d2 : delayOf b 2 = 2 * b % 2 ^ 64 := by
    unfold delayOf
    norm_num [Nat.mul_comm]
  unfold download_with_retries
  rw [hl]
  simp [retryLoop, h1, h2, h3, d1, d2]

/-- Witness for C2 (amended) at `b = 7`. -/
theorem retry_succeeds_on_third_attempt_witness :
    download_with_retries
      (fun n => if n = 3 then Except.ok ()
                else (Except.error () : Except Unit Unit)) 3 7 =
      ⟨Except.ok (), 3, [7, 2 * 7 % 2 ^ 64]⟩ :=
  retry_succeeds_on_third_attempt
    (fun n => if n = 3 then Except.ok () else Except.error ()) 7 () ()
    (by norm_num) rfl rfl rfl

/-- C4 counterexample: with base `2 ^ 63` the delay before attempt 3 is
`0`, not `2 ^ 63 * 2 ^ (2 - 1)`: the computed delay wraps modulo
`2 ^ 64` instead of growing without cap. -/
theorem backoff_overflow_counterexample :
    (download_with_retries (fun _ => (Except.error () : Except Unit Unit))
      3 (2 ^ 63)).sleeps = [2 ^ 63, 0] ∧
    (2 ^ 63 : Nat) * 2 ^ (2 - 1) ≠ 0 := by
  constructor
  · rfl
  · norm_num

/-- C4 (amended): after a failed attempt `n` with `n < maxAttempts`, the
delay slept before attempt `n + 1` is
`baseBackoffMs * 2 ^ ((n - 1) % 64) % 2 ^ 64` — the exact value
`baseBackoffMs * 2 ^ (n - 1)` whenever `n ≤ 64` and the product fits in
64 bits; no explicit cap is applied. -/
theorem backoff_delay_formula {E : Type} (exec : Nat → Except E Unit)
    (retries backoff n : Nat) (h1 : 1 ≤ n) (hn : n < retries)
    (hfail : ∀ m, 1 ≤ m → m ≤ n → ∃ e, exec m = Except.error e) :
    (download_with_retries exec retries backoff).sleeps[n - 1]? =
      some (delayOf backoff n) ∧
    (n ≤ 64 → backoff * 2 ^ (n - 1) < 2 ^ 64 →
      delayOf backoff n = backoff * 2 ^ (n - 1)) := by
  constructor
  · have hmaxle : retries ≤ Nat.max retries 1 := Nat.le_max_left retries 1
    have hsplit :
        List.range' 1 (Nat.max retries 1) =
        List.range' 1 n ++ List.range' (1 + n) (Nat.max retries 1 - n) := by
      have happ := List.range'_append 1 n (Nat.max retries 1 - n) 1
      simp only [Nat.one_mul] at happ
      rw [happ]
      congr 1
      omega
    obtain ⟨rest, hrest⟩ :=
      retryLoop_sleeps_allfail_prefix exec retries backoff
        (List.range' 1 n) (List.range' (1 + n) (Nat.max retries 1 - n))
        none 0 []
        (fun a ha => by
          have hb := List.mem_range'_1.mp ha
          exact hfail a hb.1 (by omega))
        (fun a ha => by
          have hb := List.mem_range'_1.mp ha
          omega)
    unfold download_with_retries
    rw [hsplit, hrest]
    have hlen : (List.map (delayOf backoff) (List.range' 1 n)).length = n := by
      simp [List.length_range']
    rw [List.nil_append, List.getElem?_append, List.getElem?_map]
    have hr : (List.range' 1 n)[n - 1]? = some (1 + (n - 1)) := by
      rw [List.getElem?_eq_getElem (by simp [List.length_range']; omega)]
      rw [List.getElem_range']
      simp
    rw [hr]
    have heq : 1 + (n - 1) = n := by omega
    rw [heq]
    rw [if_pos (by rw [hlen]; omega)]
    rfl
  · intro h64 hfit
    unfold delayOf
    rw [Nat.mod_eq_of_lt (show n - 1 < 64 by omega)]
    exact Nat.mod_eq_of_lt hfit

/-- Witness for C4 (amended) at `maxAttempts = 3`, base 5, attempt 1. -/
theorem backoff_delay_formula_witness :
    (download_with_retries (fun _ => (Except.error () : Except Unit Unit))
      3 5).sleeps[1 - 1]? = some (delayOf 5 1) ∧
    (1 ≤ 64 → 5 * 2 ^ (1 - 1) < 2 ^ 64 →
      delayOf 5 1 = 5 * 2 ^ (1 - 1)) :=
  backoff_delay_formula (fun _ => Except.error ()) 3 5 1 (by norm_num)
    (by norm_num) (fun m _ _ => ⟨(), rfl⟩)

/-- Witness for C10 with a succeeding executor. -/
theorem retry_result_faithful_witness :
    ((download_with_retries (fun _ => (Except.ok () : Except Unit Unit))
        1 0).result.isOk = true ↔
      ∃ n, 1 ≤ n ∧ n ≤ Nat.max 1 1 ∧
        ((fun (_ : Nat) => (Except.ok () : Except Unit Unit)) n).isOk =
          true) ∧
    (∀ x,
      (download_with_retries (fun _ => (Except.ok () : Except Unit Unit))
        1 0).result = Except.error x →
      ∃ n e, 1 ≤ n ∧ n ≤ Nat.max 1 1 ∧
        (fun (_ : Nat) => (Except.ok () : Except Unit Unit)) n =
          Except.error e ∧
        x = RetryError.attemptErr e) ∧
    (download_with_retries (fun _ => (Except.ok () : Except Unit Unit))
      1 0).result ≠ Except.error RetryError.unknownError :=
  retry_result_faithful (fun _ => Except.ok ()) 1 0

/-- C5: when `dir/name` exists and `overwrite = false`, the resolver
returns the candidate `dir/stem (k)[.ext]` for the smallest `k ≥ 1` whose
candidate does not exist, probing `k` in increasing order up to 9999;
when all 9999 candidates exist it returns the original colliding path. -/
theorem resolve_collision_smallest (existsF : String → Bool)
    (dir name : String) (hcol : existsF (joinPath dir name) = true) :
    (∃ k, 1 ≤ k ∧ k ≤ 9999 ∧
      existsF
        (joinPath dir (candidateName (fileStem name) (fileExt name) k)) =
        false ∧
      (∀ j, 1 ≤ j → j < k →
        existsF
          (joinPath dir (candidateName (fileStem name) (fileExt name) j)) =
          true) ∧
      pick_output_path existsF dir name false =
        joinPath dir (candidateName (fileStem name) (fileExt name) k)) ∨
    ((∀ k, 1 ≤ k → k ≤ 9999 →
      existsF
        (joinPath dir (candidateName (fileStem name) (fileExt name) k)) =
        true) ∧
      pick_output_path existsF dir name false = joinPath dir name) := by
  have hp : pick_output_path existsF dir name false =
      probeLoop existsF dir (fileStem name) (fileExt name) 1 9999
        (joinPath dir name) := by
    unfold pick_output_path
    simp [hcol]
  rcases probeLoop_spec existsF dir (fileStem name) (fileExt name) 9999 1
      (joinPath dir name) with ⟨k, hk1, hk2, hkf, hmin, heq⟩ | ⟨hall, heq⟩
  · exact Or.inl ⟨k, hk1, by omega, hkf, hmin, by rw [hp, heq]⟩
  · exact Or.inr
      ⟨fun k hka hkb => hall k hka (by omega), by rw [hp, heq]⟩

/-- Witness for C5: only `d/a.txt` exists, so the first candidate
`d/a (1).txt` is free and returned. -/
theorem resolve_collision_smallest_witness :
    (∃ k, 1 ≤ k ∧ k ≤ 9999 ∧
      (fun s => s == "d/a.txt")
        (joinPath "d" (candidateName (fileStem "a.txt") (fileExt "a.txt")
          k)) = false ∧
      (∀ j, 1 ≤ j → j < k →
        (fun s => s == "d/a.txt")
          (joinPath "d" (candidateName (fileStem "a.txt") (fileExt "a.txt")
            j)) = true) ∧
      pick_output_path (fun s => s == "d/a.txt") "d" "a.txt" false =
        joinPath "d" (candidateName (fileStem "a.txt") (fileExt "a.txt")
          k)) ∨
    ((∀ k, 1 ≤ k → k ≤ 9999 →
      (fun s => s == "d/a.txt")
        (joinPath "d" (candidateName (fileStem "a.txt") (fileExt "a.txt")
          k)) = true) ∧
      pick_output_path (fun s => s == "d/a.txt") "d" "a.txt" false =
        joinPath "d" "a.txt") :=
  resolve_collision_smallest (fun s => s == "d/a.txt") "d" "a.txt"
    (by decide)

/-- C6: the resolver returns exactly `dir/name` whenever `overwrite` is
true or no file exists at `dir/name`. -/
theorem resolve_direct (existsF : String → Bool) (dir name : String)
    (overwrite : Bool)
    (h : overwrite = true ∨ existsF (joinPath dir name) = false) :
    pick_output_path existsF dir name overwrite = joinPath dir name := by
  unfold pick_output_path
  rcases h with h | h <;> simp [h]

/-- Witness for C6 with `overwrite = true` over an existing target. -/
theorem resolve_direct_witness :
    pick_output_path (fun _ => true) "d" "a.txt" true =
      joinPath "d" "a.txt" :=
  resolve_direct (fun _ => true) "d" "a.txt" true (Or.inl rfl)

/-- C7 counterexample: for path segments `["a", "b", ""]` (a URL ending
in a slash) the code returns the default name even though a non-empty
segment `"b"` is present, so the name is not the last non-empty
segment. -/
theorem filename_last_segment_counterexample :
    file_name_from_url (some ["a", "b", ""]) = "download" ∧
    lastNonEmptySegment (some ["a", "b", ""]) = some "b" ∧
    ("download" : String) ≠ "b" := by
  refine ⟨rfl, rfl, ?_⟩
  decide

/-- C7 (amended): the desired filename is the URL's final path segment
when that segment is non-empty; the fixed default is used when there are
no path segments or the final segment is empty — earlier non-empty
segments are not consulted. -/
theorem filename_from_final_segment (segments : Option (List String)) :
    (∀ l s, segments = some l → l.getLast? = some s → s ≠ "" →
      file_name_from_url segments = s) ∧
    ((segments = none ∨
        ∃ l, segments = some l ∧
          (l.getLast? = none ∨ l.getLast? = some "")) →
      file_name_from_url segments = "download") := by
  constructor
  · intro l s hseg hlast hne
    subst hseg
    simp [file_name_from_url, hlast, hne]
  · intro h
    rcases h with h | ⟨l, hseg, hl⟩
    · subst h
      rfl
    · subst hseg
      rcases hl with h | h <;> simp [file_name_from_url, h]

/-- Witness for C7 (amended) at segments `["a", "b", ""]`. -/
theorem filename_from_final_segment_witness :
    (∀ l s, some ["a", "b", ""] = some l → l.getLast? = some s →
      s ≠ "" → file_name_from_url (some ["a", "b", ""]) = s) ∧
    ((some ["a", "b", ""] = none ∨
        ∃ l, some ["a", "b", ""] = some l ∧
          (l.getLast? = none ∨ l.getLast? = some "")) →
      file_name_from_url (some ["a", "b", ""]) = "download") :=
  filename_from_final_segment (some ["a", "b", ""])

/-- C8: `main` performs no validation of the concurrency limit — with
limit 0 and one URL no fatal error is raised, and the scheduler is stuck
in its initial state: no permit can ever be acquired, so the request is
never admitted and never produces an outcome (the run hangs instead of
terminating with an error). -/
theorem zero_concurrency_not_fatal :
    mainValidate ["https://host/a.txt"] 0 true = none ∧
    (∀ s', ¬ SchedStep (schedInit 0 1) s') ∧
    (schedInit 0 1).pending = 1 ∧ (schedInit 0 1).done = 0 := by
  refine ⟨rfl, ?_, rfl, rfl⟩
  intro s' h
  cases h with
  | acquire ha hp => simp [schedInit] at ha
  | complete hr => simp [schedInit] at hr

end MtDownloader

-- Executable checks of the embedding on concrete inputs.
example :
    MtDownloader.download_with_retries
      (fun n => if n = 3 then Except.ok () else Except.error ()) 3 10 =
    ⟨Except.ok (), 3, [10, 20]⟩ := rfl

example :
    MtDownloader.download_with_retries
      (fun _ => (Except.error () : Except Unit Unit)) 2 10 =
    ⟨Except.error (MtDownloader.RetryError.attemptErr ()), 2, [10]⟩ := rfl

example :
    MtDownloader.download_with_retries
      (fun _ => (Except.error () : Except Unit Unit)) 0 10 =
    ⟨Except.error (MtDownloader.RetryError.attemptErr ()), 1, []⟩ := rfl

example : MtDownloader.fileStem "a.tar.gz" = "a.tar" := by decide
example : MtDownloader.fileExt "a.tar.gz" = "gz" := by decide
example : MtDownloader.fileStem ".gitignore" = ".gitignore" := by decide
example : MtDownloader.fileExt ".gitignore" = "" := by decide
example : MtDownloader.fileStem "README" = "README" := by decide
example : MtDownloader.fileExt "foo." = "" := by decide
example : MtDownloader.fileStem "foo." = "foo" := by decide

example :
    MtDownloader.pick_output_path (fun s => s == "d/a.txt") "d" "a.txt" false =
    "d/a (1).txt" := by decide

example :
    MtDownloader.pick_output_path (fun s => s == "d/a.txt") "d" "a.txt" true =
    "d/a.txt" := by decide

example :
    MtDownloader.file_name_from_url (some ["a", "b", ""]) = "download" := by
  decide

example :
    MtDownloader.lastNonEmptySegment (some ["a", "b", ""]) = some "b" := by
  decide

example :
    MtDownloader.mainValidate ["https://host/a.txt"] 0 true = none := by decide
